import Mathlib

/-!
Verification development for the receipt compilation pipeline of the
`reimburser` repository.  The pipeline lives in four source files:

* `src/lambda/admin-generate-pdf/index.ts`   (the administrative Lambda)
* `src/lambda/generate-pdf/index.ts`         (the self-service Lambdas)
* `src/supabase/functions/admin-generate-pdf/index.ts` (the edge gate)
* `src/supabase/functions/generate-pdf/index.ts`       (the edge composer)

The definitions below are a shallow embedding of those sources: pure data
and layout computations become Lean functions, the handlers become
functions from an explicit request and an environment (the responses of
the external collaborators: authentication, profile lookup, receipt
query, image store) to a response value paired with a trace of the
side effects the handler performed (receipt query, image downloads,
storage write, presigned-URL issuance).
-/

namespace Reimburser

/-- An expense row, as in the `Expense` interface of both Lambda files:
`{ id, job_no, date, details }`. -/
structure Expense where
  id : String
  job_no : String
  date : String
  details : String
deriving Repr, DecidableEq

/-- A receipt row.  Both Lambda files declare `{ id, path, expense_id }`;
the supabase admin function additionally selects `created_at` and orders
by it, so the creation timestamp is carried here as a natural number.
The Lambda code never reads `created_at`. -/
structure Receipt where
  id : String
  path : String
  expense_id : String
  created_at : Nat
deriving Repr, DecidableEq

/-! ### Layout constants

`jsPDF()` with no arguments creates an A4 portrait document measured in
millimetres; `pageSize.height` and `pageSize.width` are the A4 point
sizes 841.89 and 595.28 divided by the millimetre scale factor
`72 / 25.4`.  The remaining constants are the literals of the sources:
`margin = 15`, `headerHeight = 24`, `minSpaceForContent = 50`, a fixed
image height of `120` in the Lambda composers, a cap `MAX_RECEIPTS = 150`
and `imageMaxWidth = pageWidth - 2 * margin`. -/

def pageHeight : ℚ := 84189 / 100 * (254 / 10) / 72

def pageWidth : ℚ := 59528 / 100 * (254 / 10) / 72

def margin : ℚ := 15

def imageMaxWidth : ℚ := pageWidth - 2 * margin

def headerHeight : ℚ := 24

def minSpaceForContent : ℚ := 50

def imgHeightLambda : ℚ := 120

def MAX_RECEIPTS : Nat := 150

/-- One placed element of the composed document.  The three text lines of
an expense header (`Job No`, `Date`, `Details`, advancing the cursor by
`7 + 7 + 10 = 24` units) are modelled as a single header block recording
the expense id and the vertical position where the block starts.  An
image block records the owning expense, the source receipt, its vertical
position and its placed width and height. -/
inductive Elem where
  | title
  | nameLine (s : String)
  | monthLine (s : String)
  | header (expenseId : String) (y : ℚ)
  | image (expenseId receiptId : String) (y w h : ℚ)
deriving Repr, DecidableEq

/-- The position-free shape of an element, used to state ordering and
multiplicity properties of the composed document. -/
inductive Desc where
  | titleD
  | nameD (s : String)
  | monthD (s : String)
  | headerD (expenseId : String)
  | imageD (expenseId receiptId : String)
deriving Repr, DecidableEq

def Elem.desc : Elem → Desc
  | .title => .titleD
  | .nameLine s => .nameD s
  | .monthLine s => .monthD s
  | .header e _ => .headerD e
  | .image e r _ _ _ => .imageD e r

def descList (l : List Elem) : List Desc := l.map Elem.desc

def Elem.isImage : Elem → Bool
  | .image _ _ _ _ _ => true
  | _ => false

/-- The mutable layout state of one composition run: the finished pages,
the current page (most recent element first), the vertical cursor
`yPosition`, and the `processedReceipts` counter of the Lambda
composers. -/
structure LayState where
  pages : List (List Elem)
  cur : List Elem
  y : ℚ
  processed : Nat
deriving Repr, DecidableEq

/-- `pdf.addPage()` followed by `yPosition = 20`: the current page is
finished and a fresh page begins. -/
def pageBreak (st : LayState) : LayState :=
  { st with pages := st.pages ++ [st.cur.reverse], cur := [], y := 20 }

/-- The pages of the finished document (the current page included). -/
def finalPages (st : LayState) : List (List Elem) :=
  st.pages ++ [st.cur.reverse]

/-- All elements of the document in placement order. -/
def flatDoc (st : LayState) : List Elem :=
  st.pages.flatten ++ st.cur.reverse

/-- The title / name / month prelude of the Lambda handlers: the title is
placed at `y = 20` and the cursor advances by 10; a `Name:` line is
emitted only when `userName` is truthy (present and non-empty) advancing
by 7; a `Month:` line is emitted only when `selectedMonth` is truthy,
advancing by 7; finally the cursor advances by 8. -/
def preludeState (userName : Option String) (selectedMonth : String) : LayState :=
  let st : LayState := { pages := [], cur := [.title], y := 30, processed := 0 }
  let st := match userName with
    | some n => if n = "" then st else { st with cur := .nameLine n :: st.cur, y := st.y + 7 }
    | none => st
  let st := if selectedMonth = "" then st
    else { st with cur := .monthLine selectedMonth :: st.cur, y := st.y + 7 }
  { st with y := st.y + 8 }

/-- Image placement of the Lambda composers
(`src/lambda/admin-generate-pdf/index.ts` lines 292-321, identically
`src/lambda/generate-pdf/index.ts` lines 204-240): the placed size is
always `imageMaxWidth × 120`; if the image does not fit in the remaining
height of the page and `yPosition > 40`, a page break is inserted first;
then the image is placed and the cursor advances by `120 + 10`. -/
def placeCachedImage (eid rid : String) (st : LayState) : LayState :=
  let st1 := if imgHeightLambda > pageHeight - st.y - margin ∧ st.y > 40
    then pageBreak st else st
  { st1 with cur := .image eid rid st1.y imageMaxWidth imgHeightLambda :: st1.cur,
             y := st1.y + imgHeightLambda + 10,
             processed := st1.processed + 1 }

/-- One expense of the Lambda admin composer
(`src/lambda/admin-generate-pdf/index.ts` lines 261-327): an expense
whose receipt group is empty is skipped entirely; otherwise a page break
is inserted when the remaining space is below
`headerHeight + minSpaceForContent`, the header block is emitted, each
receipt of the group whose download succeeded (`imageCache` hit) is
placed, and the cursor advances by the inter-group spacing 10. -/
def composeExpense (cached : String → Bool) (e : Expense) (g : List Receipt)
    (st : LayState) : LayState :=
  if g.isEmpty then st
  else
    let st1 := if st.y + headerHeight + minSpaceForContent > pageHeight - margin
      then pageBreak st else st
    let st2 := { st1 with cur := .header e.id st1.y :: st1.cur, y := st1.y + headerHeight }
    let st3 := g.foldl (fun s r => if cached r.id then placeCachedImage e.id r.id s else s) st2
    { st3 with y := st3.y + 10 }

/-- The expense loop of the Lambda admin composer: after each expense the
loop stops as soon as `processedReceipts >= MAX_RECEIPTS`. -/
def composeAll (cached : String → Bool) (groups : String → List Receipt) :
    List Expense → LayState → LayState
  | [], st => st
  | e :: es, st =>
      let st' := composeExpense cached e (groups e.id) st
      if st'.processed ≥ MAX_RECEIPTS then st' else composeAll cached groups es st'

/-- `receiptsByExpense`: grouping the receipt rows by `expense_id`
preserving their order in the queried list, as built by the `Map` loop of
`src/lambda/admin-generate-pdf/index.ts` lines 188-194. -/
def groupOf (rows : List Receipt) (eid : String) : List Receipt :=
  rows.filter (fun r => r.expense_id == eid)

/-! ### String helpers of the persistence stage -/

def isWs (c : Char) : Bool := c = ' ' ∨ c = '\t' ∨ c = '\n' ∨ c = '\r'

/-- JavaScript `s.replace(/\s+/g, "-")`: every maximal run of whitespace
becomes a single dash.  The boolean argument records whether the
previous character belonged to a whitespace run. -/
def collapseWs : Bool → List Char → List Char
  | _, [] => []
  | prevWs, c :: rest =>
      if isWs c then
        if prevWs then collapseWs true rest
        else '-' :: collapseWs true rest
      else c :: collapseWs false rest

def sanitizeWs (s : String) : String := String.mk (collapseWs false s.toList)

/-- JavaScript `s.replace(" ", "-")` with a plain-string pattern: only
the first occurrence of a space is replaced. -/
def replaceFirstSpace : List Char → List Char
  | [] => []
  | c :: rest => if c = ' ' then '-' :: rest else c :: replaceFirstSpace rest

/-- The S3 object key of the admin Lambda:
`receipts/admin-<Date.now()>-<selectedMonth with whitespace runs dashed>.pdf`. -/
def s3Key (now : Nat) (selectedMonth : String) : String :=
  "receipts/admin-" ++ toString now ++ "-" ++ sanitizeWs selectedMonth ++ ".pdf"

/-- The suggested filename of the Lambda handlers:
`amplitude-receipts-<selectedMonth with its first space dashed>.pdf`. -/
def pdfFilename (selectedMonth : String) : String :=
  "amplitude-receipts-" ++ String.mk (replaceFirstSpace selectedMonth.toList) ++ ".pdf"

/-! ### The admin Lambda handler -/

/-- The request body of the admin Lambda
(`RequestBody` of `src/lambda/admin-generate-pdf/index.ts`).
`hasBody` models the presence of `event.body`; `credsPresent` models the
joint truthiness of `supabaseUrl`, `supabaseAnonKey` and `userToken`. -/
structure AdminReq where
  hasBody : Bool
  expenses : List Expense
  selectedMonth : String
  userName : Option String
  credsPresent : Bool

/-- The behaviour of the external collaborators during one run of the
admin Lambda.  `auth` is the outcome of `supabaseClient.auth.getUser`
(`some uid` on success); `adminFlag` is the `user_profile.admin` lookup
(`none` models `profileError`); `rows` is the result of the batched
receipt query; `fetchOk rid` tells whether the signed-URL request and
image download for that receipt id succeed within the timeout and size
cap; `imageDims rid` gives the intrinsic pixel dimensions of the
downloaded bytes (carried by the cached data URL, never read by the
Lambda composer); `now` is `Date.now()`. -/
structure Env where
  serviceKey : Bool
  auth : Option String
  adminFlag : Option Bool
  rows : List Receipt
  fetchOk : String → Bool
  imageDims : String → ℚ × ℚ
  now : Nat

/-- The effect trace of one admin-Lambda run: whether the receipt table
was queried, which receipt ids had a download attempted, the uploaded
object (key and document pages) if any, and the requested expiry of the
presigned URL if one was issued. -/
structure Effects where
  resolved : Bool := false
  fetched : List String := []
  stored : Option (String × List (List Elem)) := none
  presigned : Option Nat := none
deriving Repr, DecidableEq

inductive Response where
  | badRequest (msg : String)
  | unauthorized
  | forbidden
  | serverError (msg : String)
  | success (downloadKey : String) (expiresIn : Nat) (filename : String)
deriving Repr, DecidableEq

def Response.isSuccess : Response → Bool
  | .success _ _ _ => true
  | _ => false

def Response.filenameOf : Response → Option String
  | .success _ _ f => some f
  | _ => none

/-- The handler of `src/lambda/admin-generate-pdf/index.ts`, step by
step in source order: body, expenses and credential validation; service
role key check; token verification (401); profile lookup (500 on error,
403 unless the admin flag is set); the batched receipt query (400
`No receipts found for expenses` when it yields nothing); the capped
parallel download of the first `MAX_RECEIPTS` receipts into the image
cache; the composition loop; the S3 upload under the generated key and
the issuance of a presigned GET URL valid for 3600 seconds. -/
def adminHandler (req : AdminReq) (env : Env) : Response × Effects :=
  if !req.hasBody then (.badRequest "Missing request body", {})
  else if req.expenses.isEmpty then (.badRequest "No expenses provided", {})
  else if !req.credsPresent then (.badRequest "Missing Supabase credentials", {})
  else if !env.serviceKey then (.serverError "Service role key not configured", {})
  else match env.auth with
  | none => (.unauthorized, {})
  | some _uid =>
    match env.adminFlag with
    | none => (.serverError "Failed to verify admin status", {})
    | some a =>
      if !a then (.forbidden, {})
      else if env.rows.isEmpty then
        (.badRequest "No receipts found for expenses", { resolved := true })
      else
        let toFetch := env.rows.take MAX_RECEIPTS
        let cached := fun rid => toFetch.any (fun r => r.id == rid) && env.fetchOk rid
        let st := composeAll cached (groupOf env.rows) req.expenses
          (preludeState req.userName req.selectedMonth)
        let key := s3Key env.now req.selectedMonth
        (.success key 3600 (pdfFilename req.selectedMonth),
         { resolved := true,
           fetched := toFetch.map (·.id),
           stored := some (key, finalPages st),
           presigned := some 3600 })

/-! ### The supabase administrative edge gate -/

/-- The request seen by `src/supabase/functions/admin-generate-pdf/index.ts`.
`expenses?` is `none` when the body carries no `expenses` field (an empty
array is a present, truthy value in JavaScript); `userName` / `userId`
are `none` or empty when missing. -/
structure SupaReq where
  hasAuthHeader : Bool
  expenses? : Option (List Expense)
  selectedMonth : String
  userName : Option String
  userId : Option String

/-- Collaborator behaviour for one run of the supabase admin function:
token verification, `user_profile.admin` lookup (`none` models
`profileError`), the `LAMBDA_PDF_URL` configuration, the receipt rows
returned by the `created_at`-ordered query, the signed-URL issuance per
storage path, and the downstream Lambda response (`none` models a
non-2xx response). -/
structure SupaEnv where
  auth : Option String
  adminFlag : Option Bool
  lambdaUrl : Bool
  rows : List Receipt
  signedUrlFor : String → Option String
  lambdaResp : Option String

structure SupaEffects where
  resolved : Bool := false
  signedUrlCalls : List String := []
  lambdaCalled : Bool := false
deriving Repr, DecidableEq

inductive SupaResponse where
  | noAuth
  | unauthorized
  | adminRequired
  | missingParams
  | lambdaNotConfigured
  | lambdaError
  | forward (payload : String)
deriving Repr, DecidableEq

/-- Creation-timestamp comparison used by the `.order("created_at",
ascending true)` clause of the supabase admin receipt query. -/
def recLe (a b : Receipt) : Prop := a.created_at ≤ b.created_at

instance : DecidableRel recLe := fun a b => Nat.decLe a.created_at b.created_at

instance : IsTotal Receipt recLe := ⟨fun a b => Nat.le_total a.created_at b.created_at⟩

instance : IsTrans Receipt recLe := ⟨fun _ _ _ h h' => Nat.le_trans h h'⟩

/-- The receipt resolution of the supabase admin function: all rows whose
`expense_id` is among the requested ids, ordered by `created_at`
ascending.  The datastore's ordering is modelled as a sort of the raw
row list. -/
def resolveOrdered (rows : List Receipt) : List Receipt :=
  List.insertionSort recLe rows

/-- The `serve` handler of
`src/supabase/functions/admin-generate-pdf/index.ts`, in source order:
missing `Authorization` header (401), `auth.getUser` failure (401),
profile error or missing admin flag (403), missing body parameters
(400), missing `LAMBDA_PDF_URL` (500); then the ordered receipt query,
one signed-URL request per row, and the call to the downstream Lambda
whose JSON payload is forwarded on success. -/
def supaAdminHandler (req : SupaReq) (env : SupaEnv) : SupaResponse × SupaEffects :=
  if !req.hasAuthHeader then (.noAuth, {})
  else match env.auth with
  | none => (.unauthorized, {})
  | some _uid =>
    match env.adminFlag with
    | none => (.adminRequired, {})
    | some a =>
      if !a then (.adminRequired, {})
      else if req.expenses?.isNone ∨ req.selectedMonth = "" ∨
          req.userName.getD "" = "" ∨ req.userId.getD "" = "" then
        (.missingParams, {})
      else if !env.lambdaUrl then (.lambdaNotConfigured, {})
      else
        let rows := resolveOrdered env.rows
        let fx : SupaEffects :=
          { resolved := true, signedUrlCalls := rows.map (·.path), lambdaCalled := true }
        match env.lambdaResp with
        | none => (.lambdaError, fx)
        | some payload => (.forward payload, fx)

/-! ### The supabase composer's image placement

`src/supabase/functions/generate-pdf/index.ts` lines 217-251: the image
is first scaled to the content width preserving its intrinsic aspect
ratio; if it does not fit in the remaining height of the page, a page
break is inserted only when `yPosition > 40`; if it still does not fit,
it is scaled down to exactly the remaining height of the page it lands
on. -/

/-- Intrinsic dimensions of a fetched image, as computed by
`getImageDimensions`. -/
structure Img where
  width : ℚ
  height : ℚ
deriving Repr, DecidableEq

def placeImg (st : LayState) (eid rid : String) (img : Img) : LayState :=
  let h0 : ℚ := img.height * imageMaxWidth / img.width
  let available := pageHeight - st.y - margin
  if h0 > available then
    let st1 := if st.y > 40 then pageBreak st else st
    let avail2 := pageHeight - st1.y - margin
    if h0 > avail2 then
      { st1 with cur := .image eid rid st1.y (img.width * avail2 / img.height) avail2 :: st1.cur,
                 y := st1.y + avail2 + 10 }
    else
      { st1 with cur := .image eid rid st1.y imageMaxWidth h0 :: st1.cur,
                 y := st1.y + h0 + 10 }
  else
    { st with cur := .image eid rid st.y imageMaxWidth h0 :: st.cur,
              y := st.y + h0 + 10 }

/-! ### getImageDimensions

`src/supabase/functions/generate-pdf/index.ts` lines 26-67, over a byte
buffer modelled as a list of naturals below 256.  Out-of-range
`Uint8Array` reads yield `undefined` in JavaScript; every arithmetic
context involved (`<< 8`, `| x`) coerces `undefined` to 0, and every
comparison against `undefined` is false, which the model reproduces
with `List.getD _ _ 0` and an `Option`-valued marker read. -/

/-- The 16-bit big-endian word at `i`, as computed by
`(bytes[i] << 8) | bytes[i+1]` on byte values. -/
def word16 (bs : List Nat) (i : Nat) : Nat :=
  256 * bs.getD i 0 + bs.getD (i + 1) 0

/-- JavaScript 32-bit signed coercion of a bitwise-or result. -/
def toInt32 (n : Nat) : Int :=
  let m : Nat := n % 2 ^ 32
  if m < 2 ^ 31 then (m : Int) else (m : Int) - 2 ^ 32

/-- The 32-bit big-endian word at `i`, as computed by
`(bytes[i] << 24) | (bytes[i+1] << 16) | (bytes[i+2] << 8) | bytes[i+3]`
on byte values (a signed 32-bit integer in JavaScript). -/
def word32 (bs : List Nat) (i : Nat) : Int :=
  toInt32 (2 ^ 24 * bs.getD i 0 + 2 ^ 16 * bs.getD (i + 1) 0 +
    2 ^ 8 * bs.getD (i + 2) 0 + bs.getD (i + 3) 0)

/-- The start-of-frame test on the marker byte: false when the read was
out of range (`undefined` compares false). -/
def isSOF : Option Nat → Bool
  | some m => 0xc0 ≤ m && m ≤ 0xcf && m != 0xc4 && m != 0xc8
  | none => false

/-- The JPEG marker scan loop: starting at `offset`, while the byte at
`offset` is `0xff`, read the marker byte, advance past it, return the
frame dimensions on a start-of-frame marker, otherwise skip the
segment's declared length.  Returns `none` when the loop ends without a
start-of-frame marker (break on a non-`0xff` byte or running off the
end). -/
def jpegScan (bs : List Nat) (offset : Nat) : Option (Int × Int) :=
  if _h : offset < bs.length then
    if bs.getD offset 0 = 255 then
      let marker := bs.get? (offset + 1)
      let o := offset + 2
      if isSOF marker then
        some ((word16 bs (o + 5) : Int), (word16 bs (o + 3) : Int))
      else jpegScan bs (o + word16 bs o)
    else none
  else none
termination_by bs.length - offset
decreasing_by omega

def isJpegSig (bs : List Nat) : Bool :=
  bs.get? 0 == some 0xff && bs.get? 1 == some 0xd8

def isPngSig (bs : List Nat) : Bool :=
  bs.get? 0 == some 0x89 && bs.get? 1 == some 0x50 &&
  bs.get? 2 == some 0x4e && bs.get? 3 == some 0x47

/-- `getImageDimensions`: JPEG signature then marker scan; on
fall-through, PNG signature then the IHDR words at offsets 16 and 20;
otherwise the fallback `{ width := 800, height := 600 }`. -/
def getImageDimensions (bs : List Nat) : Int × Int :=
  let jpegResult := if isJpegSig bs then jpegScan bs 2 else none
  match jpegResult with
  | some d => d
  | none =>
      if isPngSig bs then (word32 bs 16, word32 bs 20)
      else (800, 600)

/-! ### Basic facts about the layout state -/

theorem flatDoc_pageBreak (st : LayState) : flatDoc (pageBreak st) = flatDoc st := by
  simp [flatDoc, pageBreak]

theorem flatDoc_setY (st : LayState) (q : ℚ) : flatDoc { st with y := q } = flatDoc st := rfl

theorem pageBreak_processed (st : LayState) : (pageBreak st).processed = st.processed := rfl

theorem mem_flatDoc_of_mem_finalPages {st : LayState} {p : List Elem} {el : Elem}
    (hp : p ∈ finalPages st) (he : el ∈ p) : el ∈ flatDoc st := by
  unfold finalPages at hp
  unfold flatDoc
  rcases List.mem_append.1 hp with h | h
  · exact List.mem_append.2 (Or.inl (List.mem_flatten.2 ⟨p, h, he⟩))
  · rcases List.mem_singleton.1 h with rfl
    exact List.mem_append.2 (Or.inr he)

/-- The image placement of the Lambda composer appends exactly one image
element, of size `imageMaxWidth × 120`, to the document. -/
theorem placeCachedImage_flat (eid rid : String) (st : LayState) :
    ∃ y, flatDoc (placeCachedImage eid rid st) =
      flatDoc st ++ [.image eid rid y imageMaxWidth imgHeightLambda] := by
  unfold placeCachedImage
  dsimp only
  split
  · exact ⟨20, by simp [flatDoc, pageBreak]⟩
  · exact ⟨st.y, by simp [flatDoc]⟩

theorem placeCachedImage_processed (eid rid : String) (st : LayState) :
    (placeCachedImage eid rid st).processed = st.processed + 1 := by
  unfold placeCachedImage
  dsimp only
  split <;> rfl

/-- Elements of the document after the image loop of one expense: either
they were already present, or they are images of cached receipts of the
group. -/
theorem imagesFold_mem (cached : String → Bool) (eid : String) (g : List Receipt)
    (st : LayState) :
    ∀ el ∈ flatDoc (g.foldl
        (fun s r => if cached r.id then placeCachedImage eid r.id s else s) st),
      el ∈ flatDoc st ∨ ∃ r ∈ g, cached r.id = true ∧
        ∃ y, el = .image eid r.id y imageMaxWidth imgHeightLambda := by
  induction g generalizing st with
  | nil => exact fun el h => Or.inl h
  | cons r g ih =>
    intro el h
    rw [List.foldl_cons] at h
    rcases ih _ el h with h' | ⟨r', hr', hc, y, he⟩
    · by_cases hc : cached r.id = true
      · rw [if_pos hc] at h'
        obtain ⟨y, hy⟩ := placeCachedImage_flat eid r.id st
        rw [hy] at h'
        rcases List.mem_append.1 h' with h'' | h''
        · exact Or.inl h''
        · rcases List.mem_singleton.1 h'' with rfl
          exact Or.inr ⟨r, List.mem_cons_self r g, hc, y, rfl⟩
      · rw [if_neg hc] at h'
        exact Or.inl h'
    · exact Or.inr ⟨r', List.mem_cons_of_mem r hr', hc, y, he⟩

theorem imagesFold_processed (cached : String → Bool) (eid : String) (g : List Receipt)
    (st : LayState) :
    (g.foldl (fun s r => if cached r.id then placeCachedImage eid r.id s else s) st).processed
      = st.processed + (g.filter fun r => cached r.id).length := by
  induction g generalizing st with
  | nil => simp
  | cons r g ih =>
    rw [List.foldl_cons, List.filter_cons]
    by_cases hc : cached r.id = true
    · rw [if_pos hc, if_pos hc, ih, placeCachedImage_processed]
      simp [Nat.add_comm, Nat.add_assoc, Nat.add_left_comm]
    · rw [if_neg hc, if_neg hc, ih]

theorem imagesFold_desc (cached : String → Bool) (eid : String) (g : List Receipt)
    (st : LayState) :
    descList (flatDoc (g.foldl
        (fun s r => if cached r.id then placeCachedImage eid r.id s else s) st)) =
      descList (flatDoc st) ++
        ((g.filter fun r => cached r.id).map fun r => Desc.imageD eid r.id) := by
  induction g generalizing st with
  | nil => simp
  | cons r g ih =>
    rw [List.foldl_cons, List.filter_cons]
    by_cases hc : cached r.id = true
    · rw [if_pos hc, if_pos hc, ih]
      obtain ⟨y, hy⟩ := placeCachedImage_flat eid r.id st
      rw [hy]
      simp [descList, Elem.desc]
    · rw [if_neg hc, if_neg hc, ih]

/-- The header-orphan guard guarantees that every header the composer
emits starts at least `headerHeight + minSpaceForContent` above the
bottom margin. -/
theorem fresh_header_fits : (20 : ℚ) + headerHeight + minSpaceForContent ≤ pageHeight - margin := by
  norm_num [headerHeight, minSpaceForContent, pageHeight, margin]

theorem composeExpense_mem (cached : String → Bool) (e : Expense) (g : List Receipt)
    (st : LayState) :
    ∀ el ∈ flatDoc (composeExpense cached e g st),
      el ∈ flatDoc st ∨
      (∃ y, el = .header e.id y ∧ y + headerHeight + minSpaceForContent ≤ pageHeight - margin) ∨
      (∃ r ∈ g, cached r.id = true ∧
        ∃ y, el = .image e.id r.id y imageMaxWidth imgHeightLambda) := by
  unfold composeExpense
  split
  · exact fun el h => Or.inl h
  · dsimp only
    intro el h
    rw [flatDoc_setY] at h
    rcases imagesFold_mem cached e.id g _ el h with h' | ⟨r, hr, hc, y, he⟩
    · -- el is in the document right after the header push
      have hh : flatDoc { (if st.y + headerHeight + minSpaceForContent > pageHeight - margin
            then pageBreak st else st) with
          cur := Elem.header e.id (if st.y + headerHeight + minSpaceForContent >
              pageHeight - margin then pageBreak st else st).y ::
            (if st.y + headerHeight + minSpaceForContent > pageHeight - margin
              then pageBreak st else st).cur,
          y := (if st.y + headerHeight + minSpaceForContent > pageHeight - margin
            then pageBreak st else st).y + headerHeight } =
          flatDoc (if st.y + headerHeight + minSpaceForContent > pageHeight - margin
            then pageBreak st else st) ++
            [Elem.header e.id (if st.y + headerHeight + minSpaceForContent >
              pageHeight - margin then pageBreak st else st).y] := by
        simp [flatDoc]
      rw [hh] at h'
      rcases List.mem_append.1 h' with h'' | h''
      · left
        by_cases hbr : st.y + headerHeight + minSpaceForContent > pageHeight - margin
        · rw [if_pos hbr, flatDoc_pageBreak] at h''
          exact h''
        · rw [if_neg hbr] at h''
          exact h''
      · rcases List.mem_singleton.1 h'' with rfl
        right; left
        by_cases hbr : st.y + headerHeight + minSpaceForContent > pageHeight - margin
        · rw [if_pos hbr]
          exact ⟨(pageBreak st).y, rfl, fresh_header_fits⟩
        · rw [if_neg hbr]
          exact ⟨st.y, rfl, le_of_not_lt hbr⟩
    · exact Or.inr (Or.inr ⟨r, hr, hc, y, he⟩)

theorem composeExpense_processed (cached : String → Bool) (e : Expense) (g : List Receipt)
    (st : LayState) :
    (composeExpense cached e g st).processed =
      st.processed + (g.filter fun r => cached r.id).length := by
  unfold composeExpense
  split
  · rename_i hg
    rw [List.isEmpty_iff.1 hg]
    simp
  · dsimp only
    rw [imagesFold_processed]
    by_cases hbr : st.y + headerHeight + minSpaceForContent > pageHeight - margin
    · rw [if_pos hbr]; rfl
    · rw [if_neg hbr]

theorem composeExpense_desc (cached : String → Bool) (e : Expense) (g : List Receipt)
    (st : LayState) :
    descList (flatDoc (composeExpense cached e g st)) =
      descList (flatDoc st) ++
        (if g.isEmpty then [] else Desc.headerD e.id ::
          ((g.filter fun r => cached r.id).map fun r => Desc.imageD e.id r.id)) := by
  unfold composeExpense
  split
  · simp
  · dsimp only
    rw [flatDoc_setY, imagesFold_desc]
    have hh : ∀ st' : LayState,
        descList (flatDoc
            { st' with
              cur := Elem.header e.id st'.y :: st'.cur
              y := st'.y + headerHeight }) =
          descList (flatDoc st') ++ [Desc.headerD e.id] := by
      intro st'
      simp [flatDoc, descList, Elem.desc]
    rw [hh]
    by_cases hbr : st.y + headerHeight + minSpaceForContent > pageHeight - margin
    · rw [if_pos hbr, flatDoc_pageBreak]
      simp
    · rw [if_neg hbr]
      simp

/-- Provenance of every element of a full composition run: it either was
present initially, or is a header of a listed expense placed with the
orphan-guard bound satisfied, or is an image of a cached receipt of a
listed expense's group, placed at the fixed Lambda size. -/
theorem composeAll_mem (cached : String → Bool) (groups : String → List Receipt)
    (es : List Expense) (st : LayState) :
    ∀ el ∈ flatDoc (composeAll cached groups es st),
      el ∈ flatDoc st ∨
      (∃ e ∈ es, ∃ y, el = .header e.id y ∧
        y + headerHeight + minSpaceForContent ≤ pageHeight - margin) ∨
      (∃ e ∈ es, ∃ r ∈ groups e.id, cached r.id = true ∧
        ∃ y, el = .image e.id r.id y imageMaxWidth imgHeightLambda) := by
  induction es generalizing st with
  | nil => exact fun el h => Or.inl h
  | cons e es ih =>
    intro el h
    rw [composeAll] at h
    have lift : el ∈ flatDoc (composeExpense cached e (groups e.id) st) →
        el ∈ flatDoc st ∨
        (∃ e' ∈ e :: es, ∃ y, el = .header e'.id y ∧
          y + headerHeight + minSpaceForContent ≤ pageHeight - margin) ∨
        (∃ e' ∈ e :: es, ∃ r ∈ groups e'.id, cached r.id = true ∧
          ∃ y, el = .image e'.id r.id y imageMaxWidth imgHeightLambda) := by
      intro h'
      rcases composeExpense_mem cached e (groups e.id) st el h' with h1 | h2 | h3
      · exact Or.inl h1
      · exact Or.inr (Or.inl ⟨e, List.mem_cons_self e es, h2⟩)
      · exact Or.inr (Or.inr ⟨e, List.mem_cons_self e es, h3⟩)
    split at h
    · exact lift h
    · rcases ih _ el h with h1 | ⟨e', he', hy⟩ | ⟨e', he', hr⟩
      · exact lift h1
      · exact Or.inr (Or.inl ⟨e', List.mem_cons_of_mem e he', hy⟩)
      · exact Or.inr (Or.inr ⟨e', List.mem_cons_of_mem e he', hr⟩)

/-- Expenses with empty receipt groups leave the layout state unchanged. -/
theorem foldl_compose_empty (cached : String → Bool) (groups : String → List Receipt)
    (es : List Expense) (st : LayState) (h : ∀ e ∈ es, groups e.id = []) :
    es.foldl (fun s e => composeExpense cached e (groups e.id) s) st = st := by
  induction es generalizing st with
  | nil => rfl
  | cons e es ih =>
    rw [List.foldl_cons, h e (List.mem_cons_self e es)]
    exact ih _ (fun e' he' => h e' (List.mem_cons_of_mem e he'))

/-- When every receipt of every listed group is cached and the total
group size fits under the receipt cap, the early exit of the expense
loop never fires (or fires only when nothing remains), so the loop
computes the plain fold. -/
theorem composeAll_eq_foldl (cached : String → Bool) (groups : String → List Receipt)
    (es : List Expense) (st : LayState)
    (hall : ∀ e ∈ es, ∀ r ∈ groups e.id, cached r.id = true)
    (hb : st.processed + (es.map fun e => (groups e.id).length).sum ≤ MAX_RECEIPTS) :
    composeAll cached groups es st =
      es.foldl (fun s e => composeExpense cached e (groups e.id) s) st := by
  induction es generalizing st with
  | nil => rfl
  | cons e es ih =>
    rw [composeAll, List.foldl_cons]
    have hfilter : ∀ e' ∈ e :: es,
        (groups e'.id).filter (fun r => cached r.id) = groups e'.id := by
      intro e' he'
      exact List.filter_eq_self.2 (fun r hr => hall e' he' r hr)
    have hp : (composeExpense cached e (groups e.id) st).processed =
        st.processed + (groups e.id).length := by
      rw [composeExpense_processed, hfilter e (List.mem_cons_self e es)]
    rw [List.map_cons, List.sum_cons] at hb
    split
    · rename_i hbr
      rw [hp] at hbr
      have hzero : ∀ e' ∈ es, groups e'.id = [] := by
        intro e' he'
        have hsum : (es.map fun e' => (groups e'.id).length).sum = 0 := by omega
        have := List.sum_eq_zero_iff.1 hsum _ (List.mem_map_of_mem _ he')
        exact List.eq_nil_of_length_eq_zero this
      exact (foldl_compose_empty cached groups es _ hzero).symm
    · rename_i hbr
      rw [hp] at hbr
      exact ih _ (fun e' he' => hall e' (List.mem_cons_of_mem e he')) (by omega)

/-- The position-free shape of a full (non-exiting) composition fold:
the input document extended, per expense in input order, by nothing when
the group is empty and otherwise by one header followed by the images of
the group's cached receipts in group order. -/
theorem foldl_compose_desc (cached : String → Bool) (groups : String → List Receipt)
    (es : List Expense) (st : LayState) :
    descList (flatDoc (es.foldl (fun s e => composeExpense cached e (groups e.id) s) st)) =
      descList (flatDoc st) ++
        es.flatMap (fun e => if (groups e.id).isEmpty then [] else
          Desc.headerD e.id ::
            ((groups e.id).filter fun r => cached r.id).map fun r => Desc.imageD e.id r.id) := by
  induction es generalizing st with
  | nil => simp
  | cons e es ih =>
    rw [List.foldl_cons, List.flatMap_cons, ih, composeExpense_desc]
    rw [List.append_assoc]

/-- Disjoint filters over a row list: with pairwise distinct expense
ids, the receipt groups of the expenses are disjoint sublists of the row
list, so their lengths sum to at most the number of rows. -/
theorem sum_groups_le (rows : List Receipt) (es : List Expense)
    (hnd : (es.map Expense.id).Nodup) :
    (es.map fun e => (groupOf rows e.id).length).sum ≤ rows.length := by
  induction es generalizing rows with
  | nil => simp
  | cons e es ih =>
    rw [List.map_cons, List.sum_cons]
    have hnd' : (es.map Expense.id).Nodup := (List.nodup_cons.1 (by simpa using hnd)).2
    have hne : e.id ∉ es.map Expense.id := (List.nodup_cons.1 (by simpa using hnd)).1
    have key : ∀ e' ∈ es, groupOf rows e'.id =
        groupOf (rows.filter fun r => !(r.expense_id == e.id)) e'.id := by
      intro e' he'
      unfold groupOf
      rw [List.filter_filter]
      refine List.filter_congr ?_
      intro r _
      by_cases h : r.expense_id = e'.id
      · have hdiff : e'.id ≠ e.id := by
          intro hh
          exact hne (hh ▸ List.mem_map_of_mem Expense.id he')
        simp [h, hdiff]
      · simp [h]
    have hmap : (es.map fun e' => (groupOf rows e'.id).length).sum =
        (es.map fun e' =>
          (groupOf (rows.filter fun r => !(r.expense_id == e.id)) e'.id).length).sum := by
      congr 1
      exact List.map_congr_left (fun e' he' => by rw [key e' he'])
    rw [hmap]
    have h2 := ih (rows.filter fun r => !(r.expense_id == e.id)) hnd'
    have h3 : rows.length = (groupOf rows e.id).length +
        (rows.filter fun r => !(r.expense_id == e.id)).length := by
      unfold groupOf
      exact List.length_eq_length_filter_add (fun r : Receipt => r.expense_id == e.id)
    omega

/-! ### Concrete fixtures used by witnesses and counterexamples -/

def e1 : Expense := ⟨"e1", "J1", "2026-01-05", "taxi"⟩

def e2 : Expense := ⟨"e2", "J2", "2026-01-06", "hotel"⟩

def e3 : Expense := ⟨"e3", "J3", "2026-01-07", "meals"⟩

def r1 : Receipt := ⟨"r1", "p1", "e1", 1⟩

def r2 : Receipt := ⟨"r2", "p2", "e2", 2⟩

def r3 : Receipt := ⟨"r3", "p3", "e3", 3⟩

def reqStd : AdminReq := ⟨true, [e1], "January 2026", some "Alice", true⟩

def req3 : AdminReq := ⟨true, [e1, e2, e3], "January 2026", some "Alice", true⟩

def envAllFail : Env := ⟨true, some "u1", some true, [r1], fun _ => false, fun _ => (800, 600), 99⟩

def envAllOk3 : Env := ⟨true, some "u1", some true, [r1, r2, r3], fun _ => true, fun _ => (800, 600), 99⟩

def envNonAdmin : Env := ⟨true, some "u1", some false, [r1], fun _ => false, fun _ => (800, 600), 99⟩

def sreqStd : SupaReq := ⟨true, some [e1], "January 2026", some "Alice", some "u2"⟩

def senvNonAdmin : SupaEnv := ⟨some "u1", some false, true, [r1], fun _ => some "url", some "payload"⟩

/-- The prelude contains only the title and the optional name and month
lines. -/
theorem preludeState_mem (n : Option String) (m : String) :
    ∀ el ∈ flatDoc (preludeState n m),
      el = Elem.title ∨ (∃ s, el = Elem.nameLine s) ∨ (∃ s, el = Elem.monthLine s) := by
  intro el h
  unfold preludeState at h
  rcases n with _ | name
  · by_cases hm : m = ""
    · simp [flatDoc, hm] at h
      exact Or.inl h
    · simp [flatDoc, hm] at h
      rcases h with h | h
      · exact Or.inl h
      · exact Or.inr (Or.inr ⟨m, h⟩)
  · by_cases hn : name = ""
    · by_cases hm : m = ""
      · simp [flatDoc, hn, hm] at h
        exact Or.inl h
      · simp [flatDoc, hn, hm] at h
        rcases h with h | h
        · exact Or.inl h
        · exact Or.inr (Or.inr ⟨m, h⟩)
    · by_cases hm : m = ""
      · simp [flatDoc, hn, hm] at h
        rcases h with h | h
        · exact Or.inl h
        · exact Or.inr (Or.inl ⟨name, h⟩)
      · simp [flatDoc, hn, hm] at h
        rcases h with h | h | h
        · exact Or.inl h
        · exact Or.inr (Or.inl ⟨name, h⟩)
        · exact Or.inr (Or.inr ⟨m, h⟩)

/-! ### Claim C1 -/

/-- C1 counterexample: a request with one expense owning one receipt
whose single image fetch fails (`fetchOk` constantly false, so the
successful-fetch count is zero on a non-empty resolved receipt set)
nevertheless produces a 200 success response, uploads a document to
storage and issues a presigned URL — the claimed `NoReceiptsAvailable`
error and the absence of a storage write do not occur. -/
theorem c1_counterexample :
    (adminHandler reqStd envAllFail).1.isSuccess = true ∧
    (adminHandler reqStd envAllFail).2.stored.isSome = true ∧
    (adminHandler reqStd envAllFail).2.presigned = some 3600 := by
  decide

/-- C1 (amended): the `No receipts found for expenses` error, with no
storage write, occurs exactly when the *resolver* returns zero receipt
rows; when receipt rows exist but every individual image fetch fails,
the handler still returns success, uploads a document and issues a
retrieval handle — the uploaded document merely contains no image
blocks. -/
theorem c1_amended (req : AdminReq) (env : Env)
    (h1 : req.hasBody = true) (h2 : ¬ req.expenses.isEmpty) (h3 : req.credsPresent = true)
    (h4 : env.serviceKey = true) (uid : String) (h5 : env.auth = some uid)
    (h6 : env.adminFlag = some true) :
    (env.rows = [] →
      adminHandler req env =
        (.badRequest "No receipts found for expenses", { resolved := true })) ∧
    (env.rows ≠ [] → (∀ rid, env.fetchOk rid = false) →
      (adminHandler req env).1.isSuccess = true ∧
      ∃ key doc, (adminHandler req env).2.stored = some (key, doc) ∧
        ∀ p ∈ doc, ∀ el ∈ p, el.isImage = false) := by
  constructor
  · intro hrows
    simp [adminHandler, h1, h2, h3, h4, h5, h6, hrows]
  · intro hrows hfail
    have hre : ¬ env.rows.isEmpty := fun hh => hrows (List.isEmpty_iff.1 hh)
    simp only [adminHandler, h1, h2, h3, h4, h5, h6, hre, Bool.not_true, Bool.not_false,
      if_false, if_true, Bool.false_eq_true, not_false_eq_true]
    refine ⟨rfl, _, _, rfl, ?_⟩
    intro p hp el hel
    have hmem := mem_flatDoc_of_mem_finalPages hp hel
    rcases composeAll_mem _ _ _ _ el hmem with h' | ⟨_, _, y, rfl, _⟩ | ⟨e, _, r, _, hc, y, rfl⟩
    · rcases preludeState_mem _ _ el h' with rfl | ⟨s, rfl⟩ | ⟨s, rfl⟩ <;> rfl
    · rfl
    · rw [hfail r.id, Bool.and_false] at hc
      exact absurd hc (by simp)

theorem c1_amended_witness :
    (adminHandler reqStd envAllFail).1.isSuccess = true ∧
    ∃ key doc, (adminHandler reqStd envAllFail).2.stored = some (key, doc) ∧
      ∀ p ∈ doc, ∀ el ∈ p, el.isImage = false :=
  (c1_amended reqStd envAllFail rfl (by decide) rfl rfl "u1" rfl rfl).2
    (by decide) (fun _ => rfl)

/-! ### Claim C2 -/

/-- C2 counterexample: one expense with one receipt whose fetch fails.
The claim says the composed document contains no header block for such
an expense, exactly as if it had no receipts; but the composed document
is title, name line, month line *and the expense's header block* (with
no image), so the header is emitted even though every fetch failed. -/
theorem c2_counterexample :
    descList (flatDoc (composeAll (fun _ => false) (groupOf [r1]) [e1]
        (preludeState (some "Alice") "January 2026"))) =
      [.titleD, .nameD "Alice", .monthD "January 2026", .headerD "e1"] := by
  with_unfolding_all decide

/-- C2 (amended): an expense whose receipt group is non-empty but whose
fetches all failed still contributes exactly its header block and no
image blocks; only an expense with no receipts at all is skipped
without a trace. -/
theorem c2_amended (cached : String → Bool) (e : Expense) (g : List Receipt) (st : LayState)
    (hne : g ≠ []) (hfail : ∀ r ∈ g, cached r.id = false) :
    descList (flatDoc (composeExpense cached e g st)) =
      descList (flatDoc st) ++ [Desc.headerD e.id] ∧
    composeExpense cached e [] st = st := by
  refine ⟨?_, rfl⟩
  rw [composeExpense_desc]
  have hg : g.isEmpty = false := by
    cases g
    · exact absurd rfl hne
    · rfl
  have hf : g.filter (fun r => cached r.id) = [] :=
    List.filter_eq_nil_iff.2 (fun r hr => by simp [hfail r hr])
  rw [hg, hf]
  rfl

theorem c2_amended_witness :
    descList (flatDoc (composeExpense (fun _ => false) e1 [r1]
        (preludeState (some "Alice") "January 2026"))) =
      descList (flatDoc (preludeState (some "Alice") "January 2026")) ++ [Desc.headerD e1.id] ∧
    composeExpense (fun _ => false) e1 []
        (preludeState (some "Alice") "January 2026") =
      preludeState (some "Alice") "January 2026" :=
  c2_amended (fun _ => false) e1 [r1] (preludeState (some "Alice") "January 2026")
    (by decide) (fun _ _ => rfl)

/-! ### Claim C3 -/

/-- C3: for every valid-token request to the administrative export whose
caller profile lacks the administrator flag, both implementations (the
supabase edge gate and the admin Lambda) return Forbidden/403 with an
empty effect trace: no receipt resolution, no image fetch or signed-URL
call, no storage write and no downstream call.  The admin-Lambda side
additionally assumes the request passed the body/credential validation
that precedes authentication in that handler. -/
theorem c3_forbidden_short_circuit
    (sreq : SupaReq) (senv : SupaEnv) (req : AdminReq) (env : Env) (uid uid' : String)
    (h1 : sreq.hasAuthHeader = true) (h2 : senv.auth = some uid)
    (h3 : senv.adminFlag = some false)
    (h4 : req.hasBody = true) (h5 : ¬ req.expenses.isEmpty) (h6 : req.credsPresent = true)
    (h7 : env.serviceKey = true) (h8 : env.auth = some uid')
    (h9 : env.adminFlag = some false) :
    supaAdminHandler sreq senv = (.adminRequired, {}) ∧
    adminHandler req env = (.forbidden, {}) := by
  constructor
  · simp [supaAdminHandler, h1, h2, h3]
  · simp [adminHandler, h4, h5, h6, h7, h8, h9]

theorem c3_forbidden_short_circuit_witness :
    supaAdminHandler sreqStd senvNonAdmin = (.adminRequired, {}) ∧
    adminHandler reqStd envNonAdmin = (.forbidden, {}) :=
  c3_forbidden_short_circuit sreqStd senvNonAdmin reqStd envNonAdmin "u1" "u1"
    rfl rfl rfl rfl (by decide) rfl rfl rfl rfl

/-! ### Claim C4 -/

theorem preludeState_processed (n : Option String) (m : String) :
    (preludeState n m).processed = 0 := by
  unfold preludeState
  rcases n with _ | name
  · by_cases hm : m = "" <;> simp [hm]
  · by_cases hn : name = "" <;> by_cases hm : m = "" <;> simp [hn, hm]

/-- With every receipt of every group cached, the per-expense segments of
the composed shape keep exactly the expenses with non-empty groups. -/
theorem flatMap_compose_shape (groups : String → List Receipt) (cached : String → Bool)
    (es : List Expense) (hall : ∀ e ∈ es, ∀ r ∈ groups e.id, cached r.id = true) :
    es.flatMap (fun e => if (groups e.id).isEmpty then [] else
        Desc.headerD e.id :: (((groups e.id).filter fun r => cached r.id).map
          fun r => Desc.imageD e.id r.id)) =
      (es.filter fun e => !(groups e.id).isEmpty).flatMap
        (fun e => Desc.headerD e.id :: ((groups e.id).map fun r => Desc.imageD e.id r.id)) := by
  induction es with
  | nil => rfl
  | cons e es ih =>
    rw [List.flatMap_cons, List.filter_cons]
    have hfe : (groups e.id).filter (fun r => cached r.id) = groups e.id :=
      List.filter_eq_self.2 (fun r hr => hall e (List.mem_cons_self e es) r hr)
    have ih' := ih (fun e' he' r hr => hall e' (List.mem_cons_of_mem e he') r hr)
    by_cases hg : (groups e.id).isEmpty
    · rw [if_pos hg, if_neg (show ¬(!(groups e.id).isEmpty) = true by simp [hg]),
        List.nil_append]
      exact ih'
    · rw [if_neg hg, if_pos (show (!(groups e.id).isEmpty) = true by simp [hg]),
        List.flatMap_cons, hfe, List.cons_append, ih']
      rfl

/-- A receipt of expense `e1` created at timestamp 1. -/
def rEarly : Receipt := ⟨"ra", "pa", "e1", 1⟩

/-- A receipt of expense `e1` created at timestamp 2, later than
`rEarly`. -/
def rLate : Receipt := ⟨"rb", "pb", "e1", 2⟩

/-- C4 counterexample: one expense with two receipts, both successfully
fetched, where the resolver returns the later-created receipt first —
the admin Lambda's receipt query (`.in("expense_id", ...)`) carries no
order clause, so the row order is whatever the datastore returns, and
the composition the admin Lambda performs on that result places the
images in row order.  Here the later-created receipt's image precedes
the earlier-created one's, so the images of the expense's group are not
in ascending creation-timestamp order, refuting the ordering conjunct
of the claim. -/
theorem c4_counterexample :
    descList (flatDoc (composeAll (fun _ => true) (groupOf [rLate, rEarly]) [e1]
        (preludeState (some "Alice") "January 2026"))) =
      [.titleD, .nameD "Alice", .monthD "January 2026", .headerD "e1",
       .imageD "e1" rLate.id, .imageD "e1" rEarly.id] ∧
    rLate.expense_id = e1.id ∧ rEarly.expense_id = e1.id ∧
    rEarly.created_at < rLate.created_at := by
  with_unfolding_all decide

/-- C4 (amended): when the input expense list is non-empty with pairwise
distinct ids, every resolved receipt is successfully fetched, and the
resolved rows fit under the receipt cap, the composed document extends
the prelude by exactly one header block per expense with a non-empty
(hence ≥ 1 resolved image) receipt group, in input-list order, each
followed by exactly the images of its group's receipts once each — in
the order the resolver returned the rows, which no composer-reaching
path sorts by creation timestamp. -/
theorem c4_amended (es : List Expense) (rows : List Receipt)
    (cached : String → Bool) (userName : Option String) (month : String)
    (_hne : es ≠ []) (hnd : (es.map Expense.id).Nodup)
    (hall : ∀ r ∈ rows, cached r.id = true) (hlen : rows.length ≤ MAX_RECEIPTS) :
    descList (flatDoc (composeAll cached (groupOf rows) es
        (preludeState userName month))) =
      descList (flatDoc (preludeState userName month)) ++
        (es.filter fun e => !(groupOf rows e.id).isEmpty).flatMap
          (fun e => Desc.headerD e.id ::
            ((groupOf rows e.id).map fun r => Desc.imageD e.id r.id)) := by
  have hall' : ∀ e ∈ es, ∀ r ∈ groupOf rows e.id, cached r.id = true := by
    intro e _ r hr
    exact hall r (List.mem_of_mem_filter hr)
  have hsum : (es.map fun e => (groupOf rows e.id).length).sum ≤ MAX_RECEIPTS :=
    le_trans (sum_groups_le rows es hnd) hlen
  rw [composeAll_eq_foldl cached (groupOf rows) es _ hall'
    (by rw [preludeState_processed]; simpa using hsum)]
  rw [foldl_compose_desc]
  rw [flatMap_compose_shape (groupOf rows) cached es hall']

theorem c4_amended_witness :
    descList (flatDoc (composeAll (fun _ => true) (groupOf [rLate, rEarly]) [e1]
        (preludeState (some "Alice") "January 2026"))) =
      descList (flatDoc (preludeState (some "Alice") "January 2026")) ++
        (([e1].filter fun e => !(groupOf [rLate, rEarly] e.id).isEmpty).flatMap
          (fun e => Desc.headerD e.id ::
            ((groupOf [rLate, rEarly] e.id).map fun r => Desc.imageD e.id r.id))) :=
  c4_amended [e1] [rLate, rEarly] (fun _ => true) (some "Alice") "January 2026"
    (by decide) (by decide) (fun _ _ => rfl) (by decide)

/-- The success branch of the admin handler, written out: once the
validation, authentication, authorization and resolution gates pass, the
handler always returns the success response with the generated key, the
3600-second presign and the derived filename, having stored the
composed document. -/
theorem adminHandler_success (req : AdminReq) (env : Env)
    (h1 : req.hasBody = true) (h2 : ¬ req.expenses.isEmpty) (h3 : req.credsPresent = true)
    (h4 : env.serviceKey = true) (uid : String) (h5 : env.auth = some uid)
    (h6 : env.adminFlag = some true) (h7 : ¬ env.rows.isEmpty) :
    adminHandler req env =
      (.success (s3Key env.now req.selectedMonth) 3600 (pdfFilename req.selectedMonth),
       { resolved := true,
         fetched := (env.rows.take MAX_RECEIPTS).map (·.id),
         stored := some (s3Key env.now req.selectedMonth,
           finalPages (composeAll
             (fun rid => (env.rows.take MAX_RECEIPTS).any (fun r => r.id == rid) &&
               env.fetchOk rid)
             (groupOf env.rows) req.expenses
             (preludeState req.userName req.selectedMonth))),
         presigned := some 3600 }) := by
  simp [adminHandler, h1, h2, h3, h4, h5, h6, h7]

/-! ### Claim C5 -/

/-- C5 counterexample: two runs identical except for the subject name
(`Alice` vs `Bob`) return the *same* filename, which carries no trace of
either name — the filename is not derived from the subject name, only
from the fixed prefix and the period label. -/
theorem c5_counterexample :
    (adminHandler reqStd envAllFail).1.filenameOf =
      some "amplitude-receipts-January-2026.pdf" ∧
    (adminHandler { reqStd with userName := some "Bob" } envAllFail).1.filenameOf =
      some "amplitude-receipts-January-2026.pdf" := by
  with_unfolding_all decide

/-- C5 (amended): every successful run stores the document under the key
`receipts/admin-<Date.now()>-<period with whitespace runs dashed>.pdf`,
issues a presigned URL requested with a 3600-second (one hour) expiry,
and returns the filename
`amplitude-receipts-<period, first space dashed>.pdf`; the filename is
derived from a fixed prefix and the period label only — the subject
name does not influence it. -/
theorem c5_amended (req : AdminReq) (env : Env)
    (h1 : req.hasBody = true) (h2 : ¬ req.expenses.isEmpty) (h3 : req.credsPresent = true)
    (h4 : env.serviceKey = true) (uid : String) (h5 : env.auth = some uid)
    (h6 : env.adminFlag = some true) (h7 : env.rows ≠ []) :
    (∃ doc, adminHandler req env =
      (.success (s3Key env.now req.selectedMonth) 3600 (pdfFilename req.selectedMonth),
       { resolved := true,
         fetched := (env.rows.take MAX_RECEIPTS).map (·.id),
         stored := some (s3Key env.now req.selectedMonth, doc),
         presigned := some 3600 })) ∧
    ∀ n₁ n₂ : Option String,
      (adminHandler { req with userName := n₁ } env).1.filenameOf =
      (adminHandler { req with userName := n₂ } env).1.filenameOf := by
  have hre : ¬ env.rows.isEmpty := fun hh => h7 (List.isEmpty_iff.1 hh)
  constructor
  · exact ⟨_, adminHandler_success req env h1 h2 h3 h4 uid h5 h6 hre⟩
  · intro n₁ n₂
    rw [adminHandler_success { req with userName := n₁ } env h1 h2 h3 h4 uid h5 h6 hre,
      adminHandler_success { req with userName := n₂ } env h1 h2 h3 h4 uid h5 h6 hre]

theorem c5_amended_witness :
    (∃ doc, adminHandler reqStd envAllFail =
      (.success (s3Key envAllFail.now reqStd.selectedMonth) 3600
        (pdfFilename reqStd.selectedMonth),
       { resolved := true,
         fetched := (envAllFail.rows.take MAX_RECEIPTS).map (·.id),
         stored := some (s3Key envAllFail.now reqStd.selectedMonth, doc),
         presigned := some 3600 })) ∧
    (adminHandler { reqStd with userName := some "Alice" } envAllFail).1.filenameOf =
      (adminHandler { reqStd with userName := some "Bob" } envAllFail).1.filenameOf :=
  ⟨(c5_amended reqStd envAllFail rfl (by decide) rfl rfl "u1" rfl rfl (by decide)).1,
   (c5_amended reqStd envAllFail rfl (by decide) rfl rfl "u1" rfl rfl (by decide)).2
     (some "Alice") (some "Bob")⟩

/-! ### Claim C7 -/

def Elem.isImageOf (eid : String) : Elem → Bool
  | .image e _ _ _ _ => e == eid
  | _ => false

/-- C7 counterexample: three expenses with one successfully fetched
receipt each.  The orphan guard runs for the third expense at
`y = 184` (so no page break is taken, `184 + 24 + 50` fitting the
page), its header is emitted ending at `y = 208`, and the following
image (height 120) no longer fits, so the image moves to the next page:
page index 1 of the composed document ends with the third expense's
header while page index 2 holds that expense's image.  The claimed
consequence — that no header is the last element of a page while its
expense's content continues on the next page — is false. -/
theorem c7_counterexample :
    ((finalPages (composeAll (fun _ => true) (groupOf [r1, r2, r3]) [e1, e2, e3]
        (preludeState (some "Alice") "January 2026"))).getD 1 []).getLast? =
      some (.header "e3" 184) ∧
    ((finalPages (composeAll (fun _ => true) (groupOf [r1, r2, r3]) [e1, e2, e3]
        (preludeState (some "Alice") "January 2026"))).getD 2 []).any
      (Elem.isImageOf "e3") = true := by
  with_unfolding_all decide

/-- C7 (amended): the composer does start a new page whenever the
remaining space is below `headerHeight + minSpaceForContent`, so every
header block of a composition run is emitted with at least the header
height plus the 50-unit reservation available below it on its page;
but that reservation is smaller than an image height (120), so a header
can still end up as the last element of its page with the expense's
images continuing on the next page. -/
theorem c7_amended (cached : String → Bool) (groups : String → List Receipt)
    (es : List Expense) (st : LayState)
    (h0 : ∀ eid y, Elem.header eid y ∈ flatDoc st →
      y + headerHeight + minSpaceForContent ≤ pageHeight - margin) :
    ∀ eid y, Elem.header eid y ∈ flatDoc (composeAll cached groups es st) →
      y + headerHeight + minSpaceForContent ≤ pageHeight - margin := by
  intro eid y h
  rcases composeAll_mem cached groups es st _ h with h1 | ⟨e, _, y', he, hb⟩ | ⟨e, _, r, _, _, y', he⟩
  · exact h0 eid y h1
  · injection he with h₁ h₂
    subst h₂
    exact hb
  · simp at he

theorem c7_amended_witness :
    (52 : ℚ) + headerHeight + minSpaceForContent ≤ pageHeight - margin :=
  c7_amended (fun _ => true) (groupOf [r1, r2, r3]) [e1, e2, e3]
    (preludeState (some "Alice") "January 2026")
    (by
      intro eid y h
      simp [preludeState, flatDoc] at h)
    "e1" 52 (by with_unfolding_all decide)

/-! ### Claim C8 -/

/-- C8: the fetch stage attempts downloads for exactly the first
`MAX_RECEIPTS` (150) resolved receipts — never more; every image block
of the stored document comes from one of those first 150 receipts, so
receipts beyond the cap are excluded from the output; and the capped
run still returns success, never an error. -/
theorem c8_receipt_cap (req : AdminReq) (env : Env)
    (h1 : req.hasBody = true) (h2 : ¬ req.expenses.isEmpty) (h3 : req.credsPresent = true)
    (h4 : env.serviceKey = true) (uid : String) (h5 : env.auth = some uid)
    (h6 : env.adminFlag = some true) (h7 : env.rows ≠ []) :
    (adminHandler req env).2.fetched = (env.rows.take MAX_RECEIPTS).map (·.id) ∧
    (adminHandler req env).2.fetched.length ≤ MAX_RECEIPTS ∧
    (adminHandler req env).1.isSuccess = true ∧
    ∀ key doc, (adminHandler req env).2.stored = some (key, doc) →
      ∀ p ∈ doc, ∀ el ∈ p, ∀ eid rid y w h, el = .image eid rid y w h →
        rid ∈ (env.rows.take MAX_RECEIPTS).map (·.id) := by
  have hre : ¬ env.rows.isEmpty := fun hh => h7 (List.isEmpty_iff.1 hh)
  rw [adminHandler_success req env h1 h2 h3 h4 uid h5 h6 hre]
  refine ⟨rfl, ?_, rfl, ?_⟩
  · simp
  · intro key doc hstored p hp el hel eid rid y w h helim
    simp only [Option.some.injEq, Prod.mk.injEq] at hstored
    obtain ⟨-, rfl⟩ := hstored
    have hmem := mem_flatDoc_of_mem_finalPages hp hel
    rcases composeAll_mem _ _ _ _ el hmem with hpre | ⟨_, _, y', he, _⟩ | ⟨e, _, r, _, hc, y', he⟩
    · rcases preludeState_mem _ _ el hpre with rfl | ⟨s, rfl⟩ | ⟨s, rfl⟩ <;> simp at helim
    · rw [helim] at he
      simp at he
    · rw [helim] at he
      injection he with he₁ he₂
      have hc' := hc
      simp only [Bool.and_eq_true] at hc'
      obtain ⟨hany, -⟩ := hc'
      rcases List.any_eq_true.1 hany with ⟨r', hr', hid⟩
      rw [he₂]
      exact List.mem_map.2 ⟨r', hr', beq_iff_eq.1 hid⟩

theorem c8_receipt_cap_witness :
    (adminHandler req3 envAllOk3).2.fetched =
      (envAllOk3.rows.take MAX_RECEIPTS).map (·.id) ∧
    (adminHandler req3 envAllOk3).2.fetched.length ≤ MAX_RECEIPTS ∧
    (adminHandler req3 envAllOk3).1.isSuccess = true :=
  ⟨(c8_receipt_cap req3 envAllOk3 rfl (by decide) rfl rfl "u1" rfl rfl (by decide)).1,
   (c8_receipt_cap req3 envAllOk3 rfl (by decide) rfl rfl "u1" rfl rfl (by decide)).2.1,
   (c8_receipt_cap req3 envAllOk3 rfl (by decide) rfl rfl "u1" rfl rfl (by decide)).2.2.1⟩

/-! ### Claim C9 -/

/-- C9: in the Lambda composer every image block of the stored document
is placed at width `imageMaxWidth` (the full page content width,
`pageWidth - 2 * margin`) and constant height 120, whatever the
receipt; and the handler's entire outcome is independent of the
intrinsic pixel dimensions of the fetched image bytes, so the source
aspect ratio plays no role in placement. -/
theorem c9_fixed_image_size (req : AdminReq) (env : Env)
    (h1 : req.hasBody = true) (h2 : ¬ req.expenses.isEmpty) (h3 : req.credsPresent = true)
    (h4 : env.serviceKey = true) (uid : String) (h5 : env.auth = some uid)
    (h6 : env.adminFlag = some true) (h7 : env.rows ≠ []) :
    (∀ key doc, (adminHandler req env).2.stored = some (key, doc) →
      ∀ p ∈ doc, ∀ el ∈ p, ∀ eid rid y w h, el = .image eid rid y w h →
        w = imageMaxWidth ∧ h = imgHeightLambda) ∧
    ∀ d₁ d₂ : String → ℚ × ℚ,
      adminHandler req { env with imageDims := d₁ } =
      adminHandler req { env with imageDims := d₂ } := by
  have hre : ¬ env.rows.isEmpty := fun hh => h7 (List.isEmpty_iff.1 hh)
  constructor
  · rw [adminHandler_success req env h1 h2 h3 h4 uid h5 h6 hre]
    intro key doc hstored p hp el hel eid rid y w h helim
    simp only [Option.some.injEq, Prod.mk.injEq] at hstored
    obtain ⟨-, rfl⟩ := hstored
    have hmem := mem_flatDoc_of_mem_finalPages hp hel
    rcases composeAll_mem _ _ _ _ el hmem with hpre | ⟨_, _, y', he, _⟩ | ⟨e, _, r, _, hc, y', he⟩
    · rcases preludeState_mem _ _ el hpre with rfl | ⟨s, rfl⟩ | ⟨s, rfl⟩ <;> simp at helim
    · rw [helim] at he
      simp at he
    · rw [helim] at he
      injection he with he₁ he₂ he₃ he₄ he₅
      exact ⟨he₄, he₅⟩
  · intro d₁ d₂
    rfl

theorem c9_fixed_image_size_witness :
    adminHandler req3 { envAllOk3 with imageDims := fun _ => (100, 50) } =
    adminHandler req3 { envAllOk3 with imageDims := fun _ => (3000, 4000) } :=
  (c9_fixed_image_size req3 envAllOk3 rfl (by decide) rfl rfl "u1" rfl rfl (by decide)).2
    (fun _ => (100, 50)) (fun _ => (3000, 4000))

/-! ### Claim C6 -/

theorem imageMaxWidth_pos : 0 < imageMaxWidth := by
  norm_num [imageMaxWidth, pageWidth, margin]

theorem fullPage_avail_pos : 0 < pageHeight - 20 - margin := by
  norm_num [pageHeight, margin]

theorem pageBottom_gt_forty : (40 : ℚ) < pageHeight - margin := by
  norm_num [pageHeight, margin]

/-- C6: for every image placed by the supabase composer, at most one
page break is taken (so placement never loops); a page break is taken
only when the current page already has content — the page that gets
closed is non-empty, and in particular no page consisting only of the
break is ever emitted; and the placed image always fits its page: its
top position plus its placed height stays within the bottom margin, an
image too tall for the page it lands on being scaled down to exactly
the remaining height.  The state hypotheses are the run invariants: a
fresh page starts at `y = 20` and the cursor never moves above 20. -/
theorem c6_image_placement (st : LayState) (eid rid : String) (img : Img)
    (hcur : st.cur = [] → st.y = 20) (_hy : 20 ≤ st.y)
    (hw : 0 < img.width) (hh : 0 < img.height) :
    (placeImg st eid rid img).pages.length ≤ st.pages.length + 1 ∧
    ((placeImg st eid rid img).pages.length = st.pages.length + 1 →
      st.cur ≠ [] ∧ (placeImg st eid rid img).pages = st.pages ++ [st.cur.reverse]) ∧
    (∃ y w h, (placeImg st eid rid img).cur.head? = some (.image eid rid y w h) ∧
      0 < h ∧ y + h ≤ pageHeight - margin) := by
  have hmw := imageMaxWidth_pos
  have h0pos : 0 < img.height * imageMaxWidth / img.width := by positivity
  simp only [placeImg]
  by_cases hfit : img.height * imageMaxWidth / img.width > pageHeight - st.y - margin
  · rw [if_pos hfit]
    by_cases hbr : st.y > 40
    · rw [if_pos hbr]
      have hne : st.cur ≠ [] := by
        intro hceq
        rw [hcur hceq] at hbr
        norm_num at hbr
      by_cases htall : img.height * imageMaxWidth / img.width >
          pageHeight - (pageBreak st).y - margin
      · rw [if_pos htall]
        refine ⟨?_, ?_, ?_⟩
        · simp [pageBreak]
        · intro _
          exact ⟨hne, by simp [pageBreak]⟩
        · refine ⟨(pageBreak st).y, _, _, rfl, ?_, ?_⟩
          · have : (pageBreak st).y = 20 := rfl
            rw [this]
            exact fullPage_avail_pos
          · have : (pageBreak st).y = 20 := rfl
            rw [this]
            linarith
      · rw [if_neg htall]
        refine ⟨?_, ?_, ?_⟩
        · simp [pageBreak]
        · intro _
          exact ⟨hne, by simp [pageBreak]⟩
        · refine ⟨(pageBreak st).y, _, _, rfl, h0pos, ?_⟩
          have hy20 : (pageBreak st).y = 20 := rfl
          rw [hy20] at htall ⊢
          linarith [not_lt.1 htall]
    · rw [if_neg hbr]
      have hyle : st.y ≤ 40 := not_lt.1 hbr
      have htall : img.height * imageMaxWidth / img.width >
          pageHeight - st.y - margin := hfit
      rw [if_pos htall]
      refine ⟨?_, ?_, ?_⟩
      · simp
      · intro hlen
        exact absurd hlen (by simp)
      · refine ⟨st.y, _, _, rfl, ?_, ?_⟩
        · have := pageBottom_gt_forty
          linarith
        · linarith
  · rw [if_neg hfit]
    refine ⟨?_, ?_, ?_⟩
    · simp
    · intro hlen
      exact absurd hlen (by simp)
    · exact ⟨st.y, _, _, rfl, h0pos, by linarith [not_lt.1 hfit]⟩

theorem c6_image_placement_witness :
    (placeImg ⟨[], [Elem.title], 35, 0⟩ "e1" "r1" ⟨800, 600⟩).pages.length ≤
      ([] : List (List Elem)).length + 1 ∧
    ((placeImg ⟨[], [Elem.title], 35, 0⟩ "e1" "r1" ⟨800, 600⟩).pages.length =
        ([] : List (List Elem)).length + 1 →
      ([Elem.title] : List Elem) ≠ [] ∧
      (placeImg ⟨[], [Elem.title], 35, 0⟩ "e1" "r1" ⟨800, 600⟩).pages =
        [] ++ [([Elem.title] : List Elem).reverse]) ∧
    (∃ y w h,
      (placeImg ⟨[], [Elem.title], 35, 0⟩ "e1" "r1" ⟨800, 600⟩).cur.head? =
        some (.image "e1" "r1" y w h) ∧
      0 < h ∧ y + h ≤ pageHeight - margin) :=
  c6_image_placement ⟨[], [Elem.title], 35, 0⟩ "e1" "r1" ⟨800, 600⟩
    (by intro h; simp at h) (by norm_num) (by norm_num) (by norm_num)

/-! ### Claim C10 -/

/-- C10: `getImageDimensions` is total and falls back to `(800, 600)`
both on buffers that carry neither the JPEG start-of-image marker nor
the PNG signature, and on JPEG-marked buffers whose marker scan ends
without a start-of-frame marker. -/
theorem c10_dimension_fallback (bs : List Nat)
    (h : (isJpegSig bs = false ∧ isPngSig bs = false) ∨
         (isJpegSig bs = true ∧ jpegScan bs 2 = none)) :
    getImageDimensions bs = (800, 600) := by
  unfold getImageDimensions
  rcases h with ⟨hj, hp⟩ | ⟨hj, hs⟩
  · simp [hj, hp]
  · have h0 : bs.get? 0 = some 0xff := by
      have := hj
      simp only [isJpegSig, Bool.and_eq_true, beq_iff_eq] at this
      exact this.1
    have hp : isPngSig bs = false := by
      simp only [List.get?_eq_getElem?] at h0
      simp [isPngSig, h0]
    simp [hj, hs, hp]

theorem c10_dimension_fallback_witness :
    getImageDimensions [0, 1, 2] = (800, 600) ∧
    getImageDimensions [255, 216, 0] = (800, 600) :=
  ⟨c10_dimension_fallback _ (Or.inl (by decide)),
   c10_dimension_fallback _ (Or.inr ⟨by decide, by unfold jpegScan; simp⟩)⟩

end Reimburser
